import Mathlib

/-!
Verification development for the marstek-energy-trading repository.

Shallow embedding conventions:
* Go `float64` price/energy arithmetic and `shopspring/decimal` arithmetic are
  both modelled by `ℚ` (exact arithmetic; `decimal` is arbitrary precision, and
  the analyzer's float formulas are modelled at their mathematical values).
* `time.Time` is modelled by `Tm`: an absolute instant `abs` in minutes on a
  global timeline plus the UTC offset `off` (in minutes) of the location the
  value carries.  `t1.Before(t2)` is `t1.abs < t2.abs`; adding 15 minutes adds
  to `abs`; calendar-date formatting depends on `abs + off`.
* The Go sentinel `-math.MaxFloat64` used to initialise "best so far" values is
  modelled by `Option` (`none` = nothing seen yet); the Go code replaces the
  sentinel on the first real candidate and afterwards only on strict
  improvement, which is exactly the `Option` fold below.
* The sliding-window running sum of the Go code is modelled by recomputing each
  window sum; over `ℚ` the two are identical.
* `sort.Slice` (an unspecified comparison sort) is modelled by insertion sort
  on the same key; on the strictly increasing inputs of the claims both are the
  identity.
-/

namespace MT

attribute [local semireducible] Rat.mul Rat.add Rat.sub Rat.inv

/-- A `time.Time`: absolute instant in minutes, plus carried UTC offset in
minutes (the `Location` of the value). -/
structure Tm where
  abs : ℚ
  off : ℤ
deriving DecidableEq

/-- `t.Add(m minutes)` keeps the location and shifts the instant. -/
def Tm.addMin (t : Tm) (m : ℚ) : Tm := ⟨t.abs + m, t.off⟩

/-- `nordpool.Price`: one 15-minute slot. -/
structure Price where
  time : Tm
  value : ℚ
deriving DecidableEq

def dfltPrice : Price := ⟨⟨0, 0⟩, 0⟩

/-- Floor of a rational to an integer (`⌊q⌋`), executable. -/
def floorQ (q : ℚ) : ℤ := q.num.fdiv (q.den : ℤ)

/-- Ceiling of a rational to an integer (`⌈q⌉` = `math.Ceil`), executable. -/
def ceilQ (q : ℚ) : ℤ := -((-q.num).fdiv (q.den : ℤ))

/-- Go `int(x)` conversion from a real value: truncation toward zero. -/
def goIntOfRat (q : ℚ) : ℤ := q.num.tdiv (q.den : ℤ)

/-- `localMidnight`: midnight of the calendar day of `t` in `t`'s location. -/
def localMidnight (t : Tm) : Tm :=
  ⟨1440 * (floorQ ((t.abs + (t.off : ℚ)) / 1440) : ℚ) - (t.off : ℚ), t.off⟩

/-- `TimeWindow` (field `End` is `endTime`, `end` being reserved in Lean). -/
structure TimeWindow where
  startTime : Tm
  endTime : Tm
  price : ℚ
deriving DecidableEq

/-- `TradeCycle`: paired charge and discharge window. -/
structure TradeCycle where
  chargeWindow : TimeWindow
  dischargeWindow : TimeWindow
  profit : ℚ
deriving DecidableEq

/-- `TradingPlan`. -/
structure TradingPlan where
  date : Tm
  chargeWindows : List TimeWindow
  dischargeWindows : List TimeWindow
  cycles : List TradeCycle
  minPrice : ℚ
  maxPrice : ℚ
  spread : ℚ
  isProfitable : Bool
deriving DecidableEq

/-- `AnalyzerConfig`. -/
structure AnalyzerConfig where
  efficiency : ℚ
  minPriceSpread : ℚ
  batteryCapacityKWh : ℚ
  batteryMinSOC : ℚ
  chargePowerW : ℤ
  dischargePowerW : ℤ
  maxCyclesPerDay : ℤ
deriving DecidableEq

/-- Insert a price into a list sorted by time (key of `sort.Slice`'s `Before`
comparator). -/
def insertByTime (p : Price) : List Price → List Price
  | [] => [p]
  | q :: qs => if p.time.abs < q.time.abs then p :: q :: qs else q :: insertByTime p qs

/-- The `sort.Slice(sortedByTime, Before)` step of `AnalyzePrices`, modelled by
insertion sort on the same key. -/
def sortByTime : List Price → List Price
  | [] => []
  | p :: ps => insertByTime p (sortByTime ps)

/-- `windowAverage`: mean price of the window of `ws` slots starting at
`startIdx`. -/
def windowAverage (prices : List Price) (startIdx ws : ℕ) : ℚ :=
  (((List.range' startIdx ws).map fun i => (prices.getD i dfltPrice).value).sum) / (ws : ℚ)

/-- The Go candidate loops: start from the `-math.MaxFloat64` sentinel
(`none`), replace the best value only on strict improvement per `better`. -/
def bestOver {α : Type} (better : ℚ → ℚ → Bool) (g : ℕ → Option (α × ℚ))
    (idxs : List ℕ) : Option (α × ℚ) :=
  idxs.foldl
    (fun acc i =>
      match g i with
      | none => acc
      | some (a, k) =>
        match acc with
        | none => some (a, k)
        | some (b, k0) => if better k k0 then some (a, k) else some (b, k0))
    none

/-- `avg > bestAvg` (the `findLowest = false` branch). -/
def maxImproves (next best : ℚ) : Bool := decide (best < next)

/-- `avg < bestAvg` (the `findLowest = true` branch). -/
def minImproves (next best : ℚ) : Bool := decide (next < best)

/-- `findBestWindow`: best contiguous window of size `ws` starting at or after
`startIdx`; `none` models `found = false`. -/
def findBestWindow (prices : List Price) (startIdx ws : ℕ) (findLowest : Bool) :
    Option (ℕ × ℚ) :=
  if prices.length < startIdx + ws then none
  else
    bestOver (if findLowest then minImproves else maxImproves)
      (fun i => some (i, windowAverage prices i ws))
      (List.range' startIdx (prices.length + 1 - ws - startIdx))

/-- The `TradeCycle` literal built in `findBestCycle` for a charge window at
`cs` and a discharge window at `ds`. -/
def mkCycleAt (prices : List Price) (cw dw : ℕ) (eff : ℚ) (cs ds : ℕ) : TradeCycle :=
  let chargeAvg := windowAverage prices cs cw
  let dischargeAvg := windowAverage prices ds dw
  { chargeWindow :=
      ⟨(prices.getD cs dfltPrice).time,
        Tm.addMin (prices.getD (cs + cw - 1) dfltPrice).time 15, chargeAvg⟩
    dischargeWindow :=
      ⟨(prices.getD ds dfltPrice).time,
        Tm.addMin (prices.getD (ds + dw - 1) dfltPrice).time 15, dischargeAvg⟩
    profit := dischargeAvg * eff - chargeAvg }

/-- One iteration body of the `findBestCycle` loop: the candidate (cycle,
profit) offered by charge-window start `cs`, `none` when the body `continue`s. -/
def candidateCycle (prices : List Price) (cw dw : ℕ) (eff ms : ℚ) (cs : ℕ) :
    Option (TradeCycle × ℚ) :=
  let chargeAvg := windowAverage prices cs cw
  if prices.length < cs + cw + dw then none
  else
    match findBestWindow prices (cs + cw) dw false with
    | none => none
    | some (ds, dischargeAvg) =>
      if dischargeAvg ≤ chargeAvg / eff ∨ dischargeAvg - chargeAvg < ms then none
      else some (mkCycleAt prices cw dw eff cs ds, dischargeAvg * eff - chargeAvg)

/-- `findBestCycle`: most profitable charge/discharge pair from `startIdx` on. -/
def findBestCycle (prices : List Price) (startIdx cw dw : ℕ) (eff ms : ℚ) :
    Option TradeCycle :=
  (bestOver maxImproves (candidateCycle prices cw dw eff ms)
      (List.range' startIdx (prices.length + 1 - cw - startIdx))).map Prod.fst

/-- `calculateWindowSize`: 15-minute slots needed for a full charge/discharge. -/
def calculateWindowSize (capacityKWh : ℚ) (powerW : ℤ) : ℕ :=
  if powerW ≤ 0 then 8
  else
    let powerKW : ℚ := (powerW : ℚ) / 1000
    let hours : ℚ := capacityKWh / powerKW
    let slots : ℤ := ceilQ (hours * 4)
    if slots < 1 then 1 else slots.toNat

def findSlotIndexAux (tabs : ℚ) : List Price → ℕ → Option ℕ
  | [], _ => none
  | p :: ps, i => if tabs ≤ p.time.abs then some i else findSlotIndexAux tabs ps (i + 1)

/-- `findSlotIndex`: index of the first slot starting at or after `t`
(`none` models the Go return value `-1`). -/
def findSlotIndex (prices : List Price) (t : Tm) : Option ℕ :=
  findSlotIndexAux t.abs prices 0

/-- The cycle-search loop of `AnalyzePrices` (`for i := 0; i < maxCycles; i++`),
with `fuel` the remaining rounds and `startIdx` the search cursor. -/
def findCyclesLoop (prices : List Price) (cw dw : ℕ) (eff ms : ℚ) :
    ℕ → ℕ → List TradeCycle
  | 0, _ => []
  | fuel + 1, startIdx =>
    match findBestCycle prices startIdx cw dw eff ms with
    | none => []
    | some c =>
      match findSlotIndex prices c.dischargeWindow.endTime with
      | none => [c]
      | some idx =>
        if prices.length ≤ idx then [c]
        else c :: findCyclesLoop prices cw dw eff ms fuel idx

/-- The zero value `&TradingPlan{}` returned for an empty price list. -/
def zeroPlan : TradingPlan :=
  ⟨⟨0, 0⟩, [], [], [], 0, 0, 0, false⟩

/-- The usable capacity computed in `AnalyzePrices`:
`BatteryCapacityKWh * (1 - BatteryMinSOC)`. -/
def usableCapacityOf (cfg : AnalyzerConfig) : ℚ :=
  cfg.batteryCapacityKWh * (1 - cfg.batteryMinSOC)

def chargeWindowSizeOf (cfg : AnalyzerConfig) : ℕ :=
  calculateWindowSize (usableCapacityOf cfg) cfg.chargePowerW

def dischargeWindowSizeOf (cfg : AnalyzerConfig) : ℕ :=
  calculateWindowSize (usableCapacityOf cfg) cfg.dischargePowerW

/-- Effective cycle bound: `MaxCyclesPerDay`, defaulting to `2` when the
configured value is not positive. -/
def effectiveMaxCycles (cfg : AnalyzerConfig) : ℕ :=
  (if cfg.maxCyclesPerDay ≤ 0 then 2 else cfg.maxCyclesPerDay).toNat

/-- The running-minimum fold of `AnalyzePrices` over the sorted prices. -/
def listMinPrice (sorted : List Price) (first : ℚ) : ℚ :=
  sorted.foldl (fun m p => if p.value < m then p.value else m) first

/-- The running-maximum fold of `AnalyzePrices` over the sorted prices. -/
def listMaxPrice (sorted : List Price) (first : ℚ) : ℚ :=
  sorted.foldl (fun m p => if m < p.value then p.value else m) first

/-- The body of `AnalyzePrices` after the empty check and the sort. -/
def planFromSorted (sortedByTime : List Price) (cfg : AnalyzerConfig) : TradingPlan :=
  let first := sortedByTime.getD 0 dfltPrice
  let minPrice := listMinPrice sortedByTime first.value
  let maxPrice := listMaxPrice sortedByTime first.value
  let spread := maxPrice - minPrice
  let cw := chargeWindowSizeOf cfg
  let dw := dischargeWindowSizeOf cfg
  if sortedByTime.length < cw ∨ sortedByTime.length < dw then
    { date := localMidnight first.time, chargeWindows := [], dischargeWindows := []
      cycles := [], minPrice := minPrice, maxPrice := maxPrice, spread := spread
      isProfitable := false }
  else
    let cycles := findCyclesLoop sortedByTime cw dw cfg.efficiency cfg.minPriceSpread
      (effectiveMaxCycles cfg) 0
    { date := localMidnight first.time
      chargeWindows := cycles.map fun c => c.chargeWindow
      dischargeWindows := cycles.map fun c => c.dischargeWindow
      cycles := cycles, minPrice := minPrice, maxPrice := maxPrice, spread := spread
      isProfitable := decide (0 < cycles.length) }

/-- `AnalyzePrices`. -/
def analyzePrices (prices : List Price) (cfg : AnalyzerConfig) : TradingPlan :=
  if prices.isEmpty then zeroPlan
  else planFromSorted (sortByTime prices) cfg

/-- `GetCurrentPrice`: value of the 15-minute slot containing `t`. -/
def getCurrentPrice (prices : List Price) (t : Tm) : Option ℚ :=
  prices.findSome? fun p =>
    if p.time.abs ≤ t.abs ∧ t.abs < p.time.abs + 15 then some p.value else none

/-- `TradingPlan.IsInChargeWindow`. -/
def isInChargeWindow (p : TradingPlan) (t : Tm) : Bool :=
  p.chargeWindows.any fun w => decide (w.startTime.abs ≤ t.abs ∧ t.abs < w.endTime.abs)

/-- `TradingPlan.IsInDischargeWindow`. -/
def isInDischargeWindow (p : TradingPlan) (t : Tm) : Bool :=
  p.dischargeWindows.any fun w => decide (w.startTime.abs ≤ t.abs ∧ t.abs < w.endTime.abs)

/-- `TradingPlan.ShouldTrade`. -/
def shouldTrade (p : TradingPlan) : Bool :=
  p.isProfitable && (!p.chargeWindows.isEmpty || !p.dischargeWindows.isEmpty)

/-- The engine `State`. -/
inductive State
  | idle
  | charging
  | discharging
deriving DecidableEq

/-- `TradeAction`. -/
inductive TradeAction
  | charge
  | discharge
deriving DecidableEq

/-- A `Trade` record. -/
structure Trade where
  timestamp : Tm
  action : TradeAction
  priceEUR : ℚ
  powerW : ℤ
  durationS : ℤ
  energyKWh : ℚ
  startSOC : ℤ
  endSOC : ℤ
deriving DecidableEq

/-- The device commands a tick can issue (battery mutations only; the
`SetPassiveMode` sign convention is positive = discharge, negative = charge). -/
inductive Command
  | charge
  | discharge
  | idle
  | setPassive (powerW : ℤ)
deriving DecidableEq

/-- Is the command one that makes the battery charge? -/
def isChargeCmd : Command → Bool
  | Command.charge => true
  | Command.setPassive p => decide (p < 0)
  | _ => false

/-- Is the command one that makes the battery discharge? -/
def isDischargeCmd : Command → Bool
  | Command.discharge => true
  | Command.setPassive p => decide (0 < p)
  | _ => false

/-- `isDischargeProfitiable`: `decimal` arithmetic modelled exactly over `ℚ`
(`IsZero` is equality with `0`, `Div` exact, `GreaterThan` is `<` flipped). -/
def isDischargeProfitiable (lastChargePrice efficiency dischargePrice : ℚ) : Bool :=
  if lastChargePrice = 0 then false
  else decide (lastChargePrice / efficiency < dischargePrice)

/-- The Go `int(s.cfg.BatteryMinSOC * 100)` floor used by `tick`. -/
def minSOCOf (cfg : AnalyzerConfig) : ℤ := goIntOfRat (cfg.batteryMinSOC * 100)

/-- One evaluation of `Service.tick`, as a pure decision function.

Inputs mirror the state read during a tick: the engine state, the current
plan (`none` = no plan), today's prices, the clock, the battery status
(SOC and permission flags), the tracked `lastChargePrice`, and whether
`time.Since(lastPassiveRefresh)` has passed the 80% refresh threshold
(`passiveRefreshDue`).  Output: the next engine state and the device command
issued this tick (`none` = no device call).  Device I/O errors and the trade
bookkeeping of `stopCharging`/`stopDischarging` are not part of this
function; the recorded trade is modelled by `stopChargingTrade` below. -/
def tick (cfg : AnalyzerConfig) (st : State) (plan : Option TradingPlan)
    (todayPrices : List Price) (now : Tm) (soc : ℤ)
    (chargingFlag dischargFlag : Bool) (lastChargePrice : ℚ)
    (passiveRefreshDue : Bool) : State × Option Command :=
  match plan with
  | none => (State.idle, if st = State.idle then none else some Command.idle)
  | some pl =>
    if shouldTrade pl = false then
      (State.idle, if st = State.idle then none else some Command.idle)
    else
      match getCurrentPrice todayPrices now with
      | none => (st, none)
      | some currentPrice =>
        let inC := isInChargeWindow pl now
        let inD := isInDischargeWindow pl now
        match st with
        | State.idle =>
          if inC then
            if 100 ≤ soc then (State.idle, none)
            else if chargingFlag = false then (State.idle, none)
            else (State.charging, some Command.charge)
          else if inD then
            if soc ≤ minSOCOf cfg then (State.idle, none)
            else if dischargFlag = false then (State.idle, none)
            else if isDischargeProfitiable lastChargePrice cfg.efficiency currentPrice = false then
              (State.idle, none)
            else (State.discharging, some Command.discharge)
          else (State.idle, none)
        | State.charging =>
          if inC = false then (State.idle, some Command.idle)
          else if 100 ≤ soc then (State.idle, some Command.idle)
          else (State.charging,
            if passiveRefreshDue then some (Command.setPassive (-cfg.chargePowerW)) else none)
        | State.discharging =>
          if inD = false then (State.idle, some Command.idle)
          else if soc ≤ minSOCOf cfg then (State.idle, some Command.idle)
          else (State.discharging,
            if passiveRefreshDue then some (Command.setPassive cfg.dischargePowerW) else none)

/-- `calculateAveragePrice`: time-weighted average price over
`[start, fin)`, each slot weighted by its overlap with the range.  Durations
are in minutes; the Go code weights by seconds, which scales numerator and
denominator alike and leaves the quotient unchanged. -/
def avgStep (startAbs finAbs : ℚ) (a : ℚ × ℚ) (p : Price) : ℚ × ℚ :=
  let slotEnd := p.time.abs + 15
  if p.time.abs < finAbs ∧ startAbs < slotEnd then
    let overlapStart := max startAbs p.time.abs
    let overlapEnd := min finAbs slotEnd
    let overlap := overlapEnd - overlapStart
    if 0 < overlap then (a.1 + p.value * overlap, a.2 + overlap) else a
  else a

def calculateAveragePrice (todayPrices : List Price) (start fin : Tm) : ℚ :=
  if todayPrices.isEmpty then 0
  else
    let acc := todayPrices.foldl (avgStep start.abs fin.abs) (0, 0)
    if acc.2 = 0 then 0 else acc.1 / acc.2

/-- Length of the overlap of `[start, fin)` with the 15-minute slot starting
at `slotStart` (the spec's per-slot weight). -/
def overlapLen (start fin slotStart : ℚ) : ℚ :=
  max 0 (min fin (slotStart + 15) - max start slotStart)

/-- The spec's time-weighted average: `Σ value·overlap / Σ overlap` over the
price series (`0` when nothing overlaps). -/
def timeWeightedAvg (ps : List Price) (start fin : Tm) : ℚ :=
  let total := (ps.map fun p => overlapLen start.abs fin.abs p.time.abs).sum
  if total = 0 then 0
  else (ps.map fun p => p.value * overlapLen start.abs fin.abs p.time.abs).sum / total

/-- The trade recorded by `stopChargingLocked` and the updated
`lastChargePrice`, from the session fields (`currentTradeStart`,
`currentTradePrice`, `currentTradeSOC`), the clock and the end SOC. -/
def stopChargingTrade (cfg : AnalyzerConfig) (todayPrices : List Price)
    (tradeStart : Tm) (tradePrice : ℚ) (tradeStartSOC : ℤ) (now : Tm)
    (endSOC : ℤ) : Trade × ℚ :=
  let durationMin := now.abs - tradeStart.abs
  let energyKWh := (cfg.chargePowerW : ℚ) * (durationMin / 60) / 1000
  let avg0 := calculateAveragePrice todayPrices tradeStart now
  let avgPrice := if avg0 = 0 then tradePrice else avg0
  (⟨tradeStart, TradeAction.charge, avgPrice, cfg.chargePowerW,
      goIntOfRat (durationMin * 60), energyKWh, tradeStartSOC, endSOC⟩,
    avgPrice)

/-- The day key `t.Timestamp.Format("2006-01-02")` of `GetHistory`: the
calendar day number in the location the timestamp itself carries.  Two
timestamps format to the same date string exactly when their day numbers
agree. -/
def dayKey (t : Tm) : ℤ := floorQ ((t.abs + (t.off : ℚ)) / 1440)

/-- Day number of an instant in an explicitly configured location `off` (the
claim's reading: grouping in the Recorder's configured timezone). -/
def dayKeyInLoc (off : ℤ) (t : Tm) : ℤ := floorQ ((t.abs + (off : ℚ)) / 1440)

/-- `DailySummary` (the `Date` string is represented by the day number). -/
structure DailySummary where
  date : ℤ
  chargedKWh : ℚ
  dischargedKWh : ℚ
  chargeCycles : ℕ
  dischargeCycles : ℕ
  pnlEUR : ℚ
  avgChargePrice : ℚ
  minChargePrice : ℚ
  avgDischargePrice : ℚ
  maxDischargePrice : ℚ
  trades : List Trade
deriving DecidableEq

/-- The trades grouped under day key `k` (`dayTrades[dayKey]`), in recording
order. -/
def tradesOnDay (trades : List Trade) (k : ℤ) : List Trade :=
  trades.filter fun t => dayKey t.timestamp = k

/-- One `DailySummary` of `GetHistory`.  The single accumulation loop of the
Go code is modelled by one sum per field (exact over `ℚ`, so the split is
value-identical); `minChargePrice`/`maxDischargePrice` keep the sequential
fold because their zero-sentinel updates are order-sensitive. -/
def daySummary (trades : List Trade) (k : ℤ) : DailySummary :=
  let ts := tradesOnDay trades k
  let chargeTrades := ts.filter fun t => t.action = TradeAction.charge
  let dischargeTrades := ts.filter fun t => t.action = TradeAction.discharge
  let chargedKWh := (chargeTrades.map fun t => t.energyKWh).sum
  let dischargedKWh := (dischargeTrades.map fun t => t.energyKWh).sum
  let chargeCost := (chargeTrades.map fun t => t.priceEUR * t.energyKWh).sum
  let dischargeRevenue := (dischargeTrades.map fun t => t.priceEUR * t.energyKWh).sum
  { date := k
    chargedKWh := chargedKWh
    dischargedKWh := dischargedKWh
    chargeCycles := chargeTrades.length
    dischargeCycles := dischargeTrades.length
    pnlEUR := dischargeRevenue - chargeCost
    avgChargePrice := if chargedKWh = 0 then 0 else chargeCost / chargedKWh
    avgDischargePrice := if dischargedKWh = 0 then 0 else dischargeRevenue / dischargedKWh
    minChargePrice := ts.foldl
      (fun m t =>
        if t.action = TradeAction.charge ∧ (m = 0 ∨ t.priceEUR < m) then t.priceEUR else m) 0
    maxDischargePrice := ts.foldl
      (fun m t =>
        if t.action = TradeAction.discharge ∧ m < t.priceEUR then t.priceEUR else m) 0
    trades := ts }

def insertDesc (k : ℤ) : List ℤ → List ℤ
  | [] => [k]
  | j :: js => if j < k then k :: j :: js else j :: insertDesc k js

/-- The descending bubble sort of `GetHistory` on date strings, modelled as a
sort on day numbers (date strings compare like their day numbers). -/
def sortDesc (l : List ℤ) : List ℤ := l.foldr insertDesc []

/-- The distinct day keys of the history, in the final (descending) order of
`GetHistory`; the `map` insertion order is irrelevant after sorting. -/
def historyKeys (trades : List Trade) : List ℤ :=
  sortDesc ((trades.map fun t => dayKey t.timestamp).dedup)

/-- `GetHistory().Days`. -/
def getHistoryDays (trades : List Trade) : List DailySummary :=
  (historyKeys trades).map (daySummary trades)

/-- `GetHistory().TotalPnL`: the per-day PnL values accumulated while the
summaries are built. -/
def historyTotalPnL (trades : List Trade) : ℚ :=
  ((getHistoryDays trades).map fun d => d.pnlEUR).sum

/-- `GetTotalPnL`: total revenue minus total cost over raw trades. -/
def getTotalPnL (trades : List Trade) : ℚ :=
  ((trades.filter fun t => t.action = TradeAction.discharge).map
      fun t => t.priceEUR * t.energyKWh).sum -
    ((trades.filter fun t => t.action = TradeAction.charge).map
      fun t => t.priceEUR * t.energyKWh).sum

/-- Two trades fall into the same `DailySummary` of `GetHistory`. -/
def inSameDaySummary (trades : List Trade) (t1 t2 : Trade) : Prop :=
  ∃ d ∈ getHistoryDays trades, t1 ∈ d.trades ∧ t2 ∈ d.trades

instance (trades : List Trade) (t1 t2 : Trade) :
    Decidable (inSameDaySummary trades t1 t2) :=
  List.decidableBEx _ _

theorem bestOver_append_single {α : Type} (better : ℚ → ℚ → Bool) (g : ℕ → Option (α × ℚ))
    (L : List ℕ) (m : ℕ) :
    bestOver better g (L ++ [m]) =
      (match g m with
       | none => bestOver better g L
       | some (x, k) =>
         match bestOver better g L with
         | none => some (x, k)
         | some (b, k0) => if better k k0 then some (x, k) else some (b, k0)) := by
  simp only [bestOver, List.foldl_append, List.foldl_cons, List.foldl_nil]

theorem bestOver_spec {α : Type} (g : ℕ → Option (α × ℚ)) (a : ℕ) (n : ℕ) :
    (bestOver maxImproves g (List.range' a n) = none ↔
      ∀ i, a ≤ i → i < a + n → g i = none) ∧
    (∀ x k, bestOver maxImproves g (List.range' a n) = some (x, k) →
      ∃ i, a ≤ i ∧ i < a + n ∧ g i = some (x, k) ∧
        ∀ j y k2, a ≤ j → j < a + n → g j = some (y, k2) →
          k2 ≤ k ∧ (j < i → k2 < k)) := by
  induction n with
  | zero =>
    constructor
    · simp [bestOver]
      omega
    · intro x k h
      simp [bestOver] at h
  | succ n ih =>
    have hconc : List.range' a (n + 1) = List.range' a n ++ [a + n] := by
      simpa using @List.range'_concat 1 a n
    rw [hconc, bestOver_append_single]
    obtain ⟨ihnone, ihsome⟩ := ih
    cases hgm : g (a + n) with
    | none =>
      constructor
      · rw [ihnone]
        constructor
        · intro h i hai hi
          rcases (by omega : i < a + n ∨ i = a + n) with hlt | heq
          · exact h i hai hlt
          · rw [heq]; exact hgm
        · intro h i hai hi
          exact h i hai (by omega)
      · intro x k h
        obtain ⟨i, hi1, hi2, hi3, hi4⟩ := ihsome x k h
        exact ⟨i, hi1, by omega, hi3, fun j y k2 haj hj hgj => by
          rcases (by omega : j < a + n ∨ j = a + n) with hj' | hj'
          · exact hi4 j y k2 haj hj' hgj
          · rw [hj', hgm] at hgj; exact absurd hgj (by simp)⟩
    | some yk =>
      obtain ⟨y0, k0⟩ := yk
      cases hr : bestOver maxImproves g (List.range' a n) with
      | none =>
        have hall := ihnone.mp hr
        constructor
        · constructor
          · intro h; exact absurd h (by simp)
          · intro h
            have h2 := h (a + n) (by omega) (by omega)
            rw [hgm] at h2; exact absurd h2 (by simp)
        · intro x k h
          simp only [Option.some.injEq, Prod.mk.injEq] at h
          obtain ⟨hx, hk⟩ := h
          subst hx; subst hk
          refine ⟨a + n, by omega, by omega, hgm, ?_⟩
          intro j y k2 haj hj hgj
          rcases (by omega : j < a + n ∨ j = a + n) with hj' | hj'
          · rw [hall j haj hj'] at hgj; exact absurd hgj (by simp)
          · rw [hj', hgm] at hgj
            simp only [Option.some.injEq, Prod.mk.injEq] at hgj
            constructor
            · exact hgj.2.ge
            · intro hlt; omega
      | some bk =>
        obtain ⟨b, kb⟩ := bk
        obtain ⟨i0, hi01, hi02, hi03, hi04⟩ := ihsome b kb hr
        dsimp only
        by_cases hlt : kb < k0
        · have himp : maxImproves k0 kb = true := by simp [maxImproves, hlt]
          rw [himp, if_pos rfl]
          constructor
          · constructor
            · intro h; exact absurd h (by simp)
            · intro h
              have h2 := h (a + n) (by omega) (by omega)
              rw [hgm] at h2; exact absurd h2 (by simp)
          · intro x k h
            simp only [Option.some.injEq, Prod.mk.injEq] at h
            obtain ⟨hx, hk⟩ := h
            subst hx; subst hk
            refine ⟨a + n, by omega, by omega, hgm, ?_⟩
            intro j y k2 haj hj hgj
            rcases (by omega : j < a + n ∨ j = a + n) with hj' | hj'
            · have := (hi04 j y k2 haj hj' hgj).1
              exact ⟨le_of_lt (lt_of_le_of_lt this hlt), fun _ => lt_of_le_of_lt this hlt⟩
            · rw [hj', hgm] at hgj
              simp only [Option.some.injEq, Prod.mk.injEq] at hgj
              exact ⟨hgj.2.ge, fun hc => absurd hc (by omega)⟩
        · have himp : maxImproves k0 kb = false := by simp [maxImproves, hlt]
          rw [himp, if_neg (by simp)]
          constructor
          · constructor
            · intro h; exact absurd h (by simp)
            · intro h
              have h2 := h i0 hi01 (by omega)
              rw [hi03] at h2; exact absurd h2 (by simp)
          · intro x k h
            simp only [Option.some.injEq, Prod.mk.injEq] at h
            obtain ⟨hx, hk⟩ := h
            subst hx; subst hk
            refine ⟨i0, hi01, by omega, hi03, ?_⟩
            intro j y k2 haj hj hgj
            rcases (by omega : j < a + n ∨ j = a + n) with hj' | hj'
            · exact hi04 j y k2 haj hj' hgj
            · rw [hj', hgm] at hgj
              simp only [Option.some.injEq, Prod.mk.injEq] at hgj
              constructor
              · rw [← hgj.2]; exact le_of_not_lt hlt
              · intro hc; omega


theorem findBestWindow_some (prices : List Price) (s ws ds : ℕ) (av : ℚ)
    (h : findBestWindow prices s ws false = some (ds, av)) :
    s ≤ ds ∧ ds + ws ≤ prices.length ∧ av = windowAverage prices ds ws ∧
      ∀ j, s ≤ j → j + ws ≤ prices.length →
        windowAverage prices j ws ≤ av ∧ (j < ds → windowAverage prices j ws < av) := by
  rw [findBestWindow] at h
  by_cases hg : prices.length < s + ws
  · rw [if_pos hg] at h; exact absurd h (by simp)
  · rw [if_neg hg] at h
    obtain ⟨i, hi1, hi2, hi3, hi4⟩ :=
      (bestOver_spec (fun i => some (i, windowAverage prices i ws)) s
        (prices.length + 1 - ws - s)).2 ds av h
    simp only [Option.some.injEq, Prod.mk.injEq] at hi3
    obtain ⟨hii, hav⟩ := hi3
    subst hii
    refine ⟨hi1, by omega, hav.symm, ?_⟩
    intro j hsj hjw
    have := hi4 j j (windowAverage prices j ws) hsj (by omega) rfl
    exact ⟨hav ▸ this.1, fun hj => hav ▸ this.2 hj⟩

theorem findBestWindow_isSome (prices : List Price) (s ws : ℕ)
    (h : s + ws ≤ prices.length) :
    ∃ ds av, findBestWindow prices s ws false = some (ds, av) := by
  rw [findBestWindow, if_neg (by omega)]
  simp only [show (if false = true then minImproves else maxImproves) = maxImproves from rfl]
  cases hres : bestOver maxImproves (fun i => some (i, windowAverage prices i ws))
      (List.range' s (prices.length + 1 - ws - s)) with
  | none =>
    have hall := (bestOver_spec (fun i => some (i, windowAverage prices i ws)) s
      (prices.length + 1 - ws - s)).1.mp hres
    have := hall s (le_refl s) (by omega)
    exact absurd this (by simp)
  | some v => exact ⟨v.1, v.2, rfl⟩

/-- The discharge window the spec designates: the earliest highest-mean window
of size `dw` starting at or after `dss`. -/
def isBestDischarge (prices : List Price) (dw dss ds : ℕ) : Prop :=
  dss ≤ ds ∧ ds + dw ≤ prices.length ∧
    ∀ j, dss ≤ j → j + dw ≤ prices.length →
      windowAverage prices j dw ≤ windowAverage prices ds dw ∧
        (windowAverage prices j dw = windowAverage prices ds dw → ds ≤ j)

/-- The qualification test of the spec: discharge mean beats the
efficiency-adjusted charge mean and the configured minimum spread. -/
def qualifiesPair (prices : List Price) (cw dw : ℕ) (eff ms : ℚ) (cs ds : ℕ) : Prop :=
  windowAverage prices cs cw / eff < windowAverage prices ds dw ∧
    ms ≤ windowAverage prices ds dw - windowAverage prices cs cw

/-- `profit = discharge_mean × efficiency − charge_mean`. -/
def pairProfit (prices : List Price) (cw dw : ℕ) (eff : ℚ) (cs ds : ℕ) : ℚ :=
  windowAverage prices ds dw * eff - windowAverage prices cs cw

theorem isBestDischarge_unique (prices : List Price) (dw dss ds1 ds2 : ℕ)
    (h1 : isBestDischarge prices dw dss ds1) (h2 : isBestDischarge prices dw dss ds2) :
    ds1 = ds2 := by
  obtain ⟨h11, h12, h13⟩ := h1
  obtain ⟨h21, h22, h23⟩ := h2
  have e1 := (h13 ds2 h21 h22).1
  have e2 := (h23 ds1 h11 h12).1
  have heq : windowAverage prices ds2 dw = windowAverage prices ds1 dw := le_antisymm e1 e2
  have l1 := (h13 ds2 h21 h22).2 heq
  have l2 := (h23 ds1 h11 h12).2 heq.symm
  omega

theorem findBestWindow_isBestDischarge (prices : List Price) (s ws ds : ℕ) (av : ℚ)
    (h : findBestWindow prices s ws false = some (ds, av)) :
    isBestDischarge prices ws s ds ∧ av = windowAverage prices ds ws := by
  obtain ⟨h1, h2, h3, h4⟩ := findBestWindow_some prices s ws ds av h
  refine ⟨⟨h1, h2, fun j hj1 hj2 => ?_⟩, h3⟩
  obtain ⟨hle, hlt⟩ := h4 j hj1 hj2
  refine ⟨h3 ▸ hle, fun heq => ?_⟩
  by_contra hcon
  have := hlt (by omega)
  rw [heq, h3] at this
  exact lt_irrefl _ this

theorem candidateCycle_some (prices : List Price) (cw dw : ℕ) (eff ms : ℚ) (cs : ℕ)
    (c : TradeCycle) (p : ℚ)
    (h : candidateCycle prices cw dw eff ms cs = some (c, p)) :
    ∃ ds, cs + cw + dw ≤ prices.length ∧
      isBestDischarge prices dw (cs + cw) ds ∧
      qualifiesPair prices cw dw eff ms cs ds ∧
      c = mkCycleAt prices cw dw eff cs ds ∧
      p = pairProfit prices cw dw eff cs ds := by
  rw [candidateCycle] at h
  by_cases hg : prices.length < cs + cw + dw
  · rw [if_pos hg] at h; exact absurd h (by simp)
  · rw [if_neg hg] at h
    cases hfbw : findBestWindow prices (cs + cw) dw false with
    | none => rw [hfbw] at h; exact absurd h (by simp)
    | some dsav =>
      obtain ⟨ds, dav⟩ := dsav
      rw [hfbw] at h
      dsimp only at h
      by_cases hq : dav ≤ windowAverage prices cs cw / eff ∨
          dav - windowAverage prices cs cw < ms
      · rw [if_pos hq] at h; exact absurd h (by simp)
      · rw [if_neg hq] at h
        push_neg at hq
        obtain ⟨hbd, hdav⟩ := findBestWindow_isBestDischarge prices (cs + cw) dw ds dav hfbw
        simp only [Option.some.injEq, Prod.mk.injEq] at h
        refine ⟨ds, by omega, hbd, ?_, h.1.symm, ?_⟩
        · rw [qualifiesPair, ← hdav]
          exact hq
        · rw [pairProfit, ← hdav]
          exact h.2.symm

theorem candidateCycle_of_qualifies (prices : List Price) (cw dw : ℕ) (eff ms : ℚ)
    (cs ds : ℕ) (hroom : cs + cw + dw ≤ prices.length)
    (hbd : isBestDischarge prices dw (cs + cw) ds)
    (hq : qualifiesPair prices cw dw eff ms cs ds) :
    candidateCycle prices cw dw eff ms cs =
      some (mkCycleAt prices cw dw eff cs ds, pairProfit prices cw dw eff cs ds) := by
  rw [candidateCycle, if_neg (by omega)]
  obtain ⟨ds0, av0, hfbw⟩ := findBestWindow_isSome prices (cs + cw) dw (by omega)
  obtain ⟨hbd0, hav0⟩ := findBestWindow_isBestDischarge prices (cs + cw) dw ds0 av0 hfbw
  have hds : ds0 = ds := isBestDischarge_unique prices dw (cs + cw) ds0 ds hbd0 hbd
  subst hds
  rw [hfbw]
  dsimp only
  rw [if_neg ?hcond]
  case hcond =>
    rw [hav0]
    push_neg
    exact ⟨hq.1, by linarith [hq.2]⟩
  rw [hav0, pairProfit]

theorem findBestCycle_some (prices : List Price) (startIdx cw dw : ℕ) (eff ms : ℚ)
    (c : TradeCycle) (h : findBestCycle prices startIdx cw dw eff ms = some c) :
    ∃ cs ds, startIdx ≤ cs ∧ cs + cw + dw ≤ prices.length ∧
      isBestDischarge prices dw (cs + cw) ds ∧
      qualifiesPair prices cw dw eff ms cs ds ∧
      c = mkCycleAt prices cw dw eff cs ds ∧
      c.profit = pairProfit prices cw dw eff cs ds ∧
      ∀ cs2 ds2, startIdx ≤ cs2 → cs2 + cw + dw ≤ prices.length →
        isBestDischarge prices dw (cs2 + cw) ds2 →
        qualifiesPair prices cw dw eff ms cs2 ds2 →
        pairProfit prices cw dw eff cs2 ds2 ≤ c.profit ∧
          (cs2 < cs → pairProfit prices cw dw eff cs2 ds2 < c.profit) := by
  rw [findBestCycle] at h
  rw [Option.map_eq_some'] at h
  obtain ⟨⟨c0, p⟩, hb, hc0⟩ := h
  dsimp only at hc0
  subst hc0
  obtain ⟨i, hi1, hi2, hi3, hi4⟩ :=
    (bestOver_spec (candidateCycle prices cw dw eff ms) startIdx
      (prices.length + 1 - cw - startIdx)).2 c0 p hb
  obtain ⟨ds, hroom, hbd, hq, hcyc, hp⟩ := candidateCycle_some prices cw dw eff ms i c0 p hi3
  have hprofit : c0.profit = p := by
    rw [hcyc, hp]; simp [mkCycleAt, pairProfit]
  refine ⟨i, ds, hi1, hroom, hbd, hq, hcyc, by rw [hprofit, hp], ?_⟩
  intro cs2 ds2 h1 h2 h3 h4
  have hcand := candidateCycle_of_qualifies prices cw dw eff ms cs2 ds2 h2 h3 h4
  have := hi4 cs2 (mkCycleAt prices cw dw eff cs2 ds2)
    (pairProfit prices cw dw eff cs2 ds2) h1 (by omega) hcand
  rw [hprofit]
  exact this

theorem findBestCycle_none (prices : List Price) (startIdx cw dw : ℕ) (eff ms : ℚ)
    (h : findBestCycle prices startIdx cw dw eff ms = none) :
    ∀ cs ds, startIdx ≤ cs → cs + cw + dw ≤ prices.length →
      isBestDischarge prices dw (cs + cw) ds →
      ¬ qualifiesPair prices cw dw eff ms cs ds := by
  intro cs ds h1 h2 h3 h4
  rw [findBestCycle, Option.map_eq_none'] at h
  have hall := (bestOver_spec (candidateCycle prices cw dw eff ms) startIdx
    (prices.length + 1 - cw - startIdx)).1.mp h
  have hcand := candidateCycle_of_qualifies prices cw dw eff ms cs ds h2 h3 h4
  have := hall cs h1 (by omega)
  rw [this] at hcand
  exact absurd hcand (by simp)

theorem findSlotIndexAux_spec (tabs : ℚ) :
    ∀ (l : List Price) (i0 i : ℕ), findSlotIndexAux tabs l i0 = some i →
      i0 ≤ i ∧ i - i0 < l.length ∧ tabs ≤ (l.getD (i - i0) dfltPrice).time.abs := by
  intro l
  induction l with
  | nil => intro i0 i h; simp [findSlotIndexAux] at h
  | cons p ps ih =>
    intro i0 i h
    rw [findSlotIndexAux] at h
    by_cases hc : tabs ≤ p.time.abs
    · rw [if_pos hc] at h
      simp only [Option.some.injEq] at h
      subst h
      simp [hc]
    · rw [if_neg hc] at h
      obtain ⟨h1, h2, h3⟩ := ih (i0 + 1) i h
      refine ⟨by omega, by simp; omega, ?_⟩
      have hstep : i - i0 = (i - (i0 + 1)) + 1 := by omega
      rw [hstep, List.getD_cons_succ]
      exact h3

theorem findSlotIndex_spec (prices : List Price) (t : Tm) (i : ℕ)
    (h : findSlotIndex prices t = some i) :
    i < prices.length ∧ t.abs ≤ (prices.getD i dfltPrice).time.abs := by
  obtain ⟨h1, h2, h3⟩ := findSlotIndexAux_spec t.abs prices 0 i h
  rw [Nat.sub_zero] at h2 h3
  exact ⟨h2, h3⟩

/-- The input consists of contiguous fixed 15-minute slots beginning at `t0`. -/
def contiguous15 (prices : List Price) (t0 : ℚ) : Prop :=
  ∀ i, i < prices.length → (prices.getD i dfltPrice).time.abs = t0 + 15 * i

instance (prices : List Price) (t0 : ℚ) : Decidable (contiguous15 prices t0) := by
  unfold contiguous15
  exact Nat.decidableBallLT _ _

theorem insertByTime_of_forall_lt (p : Price) (l : List Price)
    (h : ∀ q ∈ l, p.time.abs < q.time.abs) : insertByTime p l = p :: l := by
  cases l with
  | nil => rfl
  | cons q qs =>
    rw [insertByTime, if_pos (h q (List.mem_cons_self q qs))]

theorem sortByTime_eq_self (l : List Price)
    (h : List.Pairwise (fun a b => a.time.abs < b.time.abs) l) : sortByTime l = l := by
  induction l with
  | nil => rfl
  | cons p ps ih =>
    rw [sortByTime, ih (List.Pairwise.of_cons h)]
    exact insertByTime_of_forall_lt p ps fun q hq => List.rel_of_pairwise_cons h hq

theorem contiguous15_pairwise (prices : List Price) (t0 : ℚ)
    (h : contiguous15 prices t0) :
    List.Pairwise (fun a b : Price => a.time.abs < b.time.abs) prices := by
  rw [List.pairwise_iff_getElem]
  intro i j hi hj hij
  have hgi := h i hi
  have hgj := h j hj
  rw [List.getD_eq_getElem prices dfltPrice hi] at hgi
  rw [List.getD_eq_getElem prices dfltPrice hj] at hgj
  rw [hgi, hgj]
  have : (i : ℚ) < (j : ℚ) := by exact_mod_cast hij
  linarith

theorem calculateWindowSize_pos (cap : ℚ) (p : ℤ) : 1 ≤ calculateWindowSize cap p := by
  rw [calculateWindowSize]
  split
  · omega
  · dsimp only
    split
    · omega
    · rename_i hp hs
      omega

theorem mkCycleAt_abs (prices : List Price) (cw dw : ℕ) (eff : ℚ) (cs ds : ℕ) (t0 : ℚ)
    (hcont : contiguous15 prices t0) (hcw : 1 ≤ cw) (hdw : 1 ≤ dw)
    (h1 : cs + cw ≤ prices.length) (h2 : ds + dw ≤ prices.length) :
    (mkCycleAt prices cw dw eff cs ds).chargeWindow.startTime.abs = t0 + 15 * (cs : ℚ) ∧
    (mkCycleAt prices cw dw eff cs ds).chargeWindow.endTime.abs = t0 + 15 * ((cs + cw : ℕ) : ℚ) ∧
    (mkCycleAt prices cw dw eff cs ds).dischargeWindow.startTime.abs = t0 + 15 * (ds : ℚ) ∧
    (mkCycleAt prices cw dw eff cs ds).dischargeWindow.endTime.abs = t0 + 15 * ((ds + dw : ℕ) : ℚ) := by
  have hc1 : ((cs + cw - 1 : ℕ) : ℚ) + 1 = ((cs + cw : ℕ) : ℚ) := by
    exact_mod_cast (by omega : (cs + cw - 1) + 1 = cs + cw)
  have hd1 : ((ds + dw - 1 : ℕ) : ℚ) + 1 = ((ds + dw : ℕ) : ℚ) := by
    exact_mod_cast (by omega : (ds + dw - 1) + 1 = ds + dw)
  simp only [mkCycleAt, Tm.addMin]
  refine ⟨?_, ?_, ?_, ?_⟩
  · exact hcont cs (by omega)
  · rw [hcont (cs + cw - 1) (by omega)]
    linarith
  · exact hcont ds (by omega)
  · rw [hcont (ds + dw - 1) (by omega)]
    linarith

theorem findCyclesLoop_spec (prices : List Price) (cw dw : ℕ) (eff ms : ℚ) (t0 : ℚ)
    (hcont : contiguous15 prices t0) (hcw : 1 ≤ cw) (hdw : 1 ≤ dw) :
    ∀ (fuel startIdx : ℕ),
      (findCyclesLoop prices cw dw eff ms fuel startIdx).length ≤ fuel ∧
      (∀ c ∈ findCyclesLoop prices cw dw eff ms fuel startIdx,
        c.chargeWindow.endTime.abs ≤ c.dischargeWindow.startTime.abs) ∧
      List.Chain' (fun a b => a.dischargeWindow.endTime.abs ≤ b.chargeWindow.startTime.abs)
        (findCyclesLoop prices cw dw eff ms fuel startIdx) ∧
      ∀ c, (findCyclesLoop prices cw dw eff ms fuel startIdx).head? = some c →
        t0 + 15 * (startIdx : ℚ) ≤ c.chargeWindow.startTime.abs := by
  intro fuel
  induction fuel with
  | zero => intro s; simp [findCyclesLoop]
  | succ n ih =>
    intro s
    rw [findCyclesLoop]
    cases hfc : findBestCycle prices s cw dw eff ms with
    | none => simp
    | some c =>
      obtain ⟨cs, ds, hcs, hroom, hbd, hq, hcyc, hprof, hmax⟩ :=
        findBestCycle_some prices s cw dw eff ms c hfc
      have habs := mkCycleAt_abs prices cw dw eff cs ds t0 hcont hcw hdw
        (by omega) hbd.2.1
      have hcsds : ((cs + cw : ℕ) : ℚ) ≤ (ds : ℚ) := by exact_mod_cast hbd.1
      have hscs : ((s : ℕ) : ℚ) ≤ (cs : ℚ) := by exact_mod_cast hcs
      have hwithin : c.chargeWindow.endTime.abs ≤ c.dischargeWindow.startTime.abs := by
        rw [hcyc, habs.2.1, habs.2.2.1]
        linarith
      have hstart : t0 + 15 * (s : ℚ) ≤ c.chargeWindow.startTime.abs := by
        rw [hcyc, habs.1]
        linarith
      cases hsl : findSlotIndex prices c.dischargeWindow.endTime with
      | none =>
        simp only [hsl]
        refine ⟨by simp, ?_, by simp, ?_⟩
        · intro x hx
          rw [List.mem_singleton] at hx
          rw [hx]
          exact hwithin
        · intro x hx
          simp only [List.head?_cons, Option.some.injEq] at hx
          rw [← hx]
          exact hstart
      | some idx =>
        simp only [hsl]
        by_cases hlen : prices.length ≤ idx
        · rw [if_pos hlen]
          refine ⟨by simp, ?_, by simp, ?_⟩
          · intro x hx
            rw [List.mem_singleton] at hx
            rw [hx]
            exact hwithin
          · intro x hx
            simp only [List.head?_cons, Option.some.injEq] at hx
            rw [← hx]
            exact hstart
        · rw [if_neg hlen]
          obtain ⟨ihlen, ihall, ihchain, ihhead⟩ := ih idx
          obtain ⟨hidxlt, hidxge⟩ := findSlotIndex_spec prices c.dischargeWindow.endTime idx hsl
          have hidxabs : (prices.getD idx dfltPrice).time.abs = t0 + 15 * (idx : ℚ) :=
            hcont idx hidxlt
          refine ⟨by simp [Nat.succ_le_succ ihlen], ?_, ?_, ?_⟩
          · intro x hx
            rcases List.mem_cons.mp hx with hx' | hx'
            · rw [hx']; exact hwithin
            · exact ihall x hx'
          · rw [List.chain'_cons']
            refine ⟨?_, ihchain⟩
            intro b hb
            have hbstart := ihhead b hb
            calc c.dischargeWindow.endTime.abs
                ≤ t0 + 15 * (idx : ℚ) := by rw [← hidxabs]; exact hidxge
              _ ≤ b.chargeWindow.startTime.abs := hbstart
          · intro x hx
            simp only [List.head?_cons, Option.some.injEq] at hx
            rw [← hx]
            exact hstart

theorem insertByTime_length (p : Price) (l : List Price) :
    (insertByTime p l).length = l.length + 1 := by
  induction l with
  | nil => rfl
  | cons q qs ih =>
    rw [insertByTime]
    split
    · simp
    · simp [ih]

theorem sortByTime_length (l : List Price) : (sortByTime l).length = l.length := by
  induction l with
  | nil => rfl
  | cons p ps ih => rw [sortByTime, insertByTime_length, ih, List.length_cons]

theorem analyzePrices_cycles_cases (prices : List Price) (cfg : AnalyzerConfig)
    (hsorted : sortByTime prices = prices) :
    (analyzePrices prices cfg).cycles = [] ∨
      (analyzePrices prices cfg).cycles =
        findCyclesLoop prices (chargeWindowSizeOf cfg) (dischargeWindowSizeOf cfg)
          cfg.efficiency cfg.minPriceSpread (effectiveMaxCycles cfg) 0 := by
  rw [analyzePrices]
  by_cases he : prices.isEmpty
  · rw [if_pos he]; left; rfl
  · rw [if_neg he, hsorted]
    simp only [planFromSorted]
    by_cases hshort : prices.length < chargeWindowSizeOf cfg ∨
        prices.length < dischargeWindowSizeOf cfg
    · rw [if_pos hshort]; left; rfl
    · rw [if_neg hshort]; right; rfl

/-- The concrete input of the C1 counterexample: four contiguous 15-minute
slots alternating cheap and expensive, single-slot windows, and a configured
`MaxCyclesPerDay` of `0`. -/
def c1exPrices : List Price :=
  [⟨⟨0, 0⟩, 5/100⟩, ⟨⟨15, 0⟩, 25/100⟩, ⟨⟨30, 0⟩, 5/100⟩, ⟨⟨45, 0⟩, 25/100⟩]

def c1exCfg : AnalyzerConfig :=
  { efficiency := 9/10, minPriceSpread := 5/100, batteryCapacityKWh := 1
    batteryMinSOC := 0, chargePowerW := 4000, dischargePowerW := 4000
    maxCyclesPerDay := 0 }

/-- C1, counterexample: on a contiguous 15-minute price list and a config
with `MaxCyclesPerDay = 0`, `AnalyzePrices` returns 2 cycles — more than
the configured maximum (the code substitutes a default of 2 for a
non-positive configured value). -/
theorem c1_counterexample :
    contiguous15 c1exPrices 0 ∧
      c1exCfg.maxCyclesPerDay = 0 ∧
      (analyzePrices c1exPrices c1exCfg).cycles.length = 2 ∧
      ¬ (((analyzePrices c1exPrices c1exCfg).cycles.length : ℤ) ≤ c1exCfg.maxCyclesPerDay) := by
  refine ⟨by decide, rfl, by decide, by decide⟩

/-- C1 (amended): for every contiguous fixed 15-minute price list and every
config, each returned cycle has its charge window ending no later than its
discharge window starts, consecutive cycles are chronologically ordered and
non-overlapping (each cycle's charge window starts at or after the previous
cycle's discharge window ends), and the number of cycles is at most the
effective maximum: the configured `MaxCyclesPerDay` when positive, else the
default of 2. -/
theorem c1_plan_cycle_invariants (prices : List Price) (cfg : AnalyzerConfig) (t0 : ℚ)
    (hcont : contiguous15 prices t0) :
    (∀ c ∈ (analyzePrices prices cfg).cycles,
      c.chargeWindow.endTime.abs ≤ c.dischargeWindow.startTime.abs) ∧
    List.Chain' (fun a b => a.dischargeWindow.endTime.abs ≤ b.chargeWindow.startTime.abs)
      (analyzePrices prices cfg).cycles ∧
    (analyzePrices prices cfg).cycles.length ≤ effectiveMaxCycles cfg := by
  have hsorted := sortByTime_eq_self prices (contiguous15_pairwise prices t0 hcont)
  rcases analyzePrices_cycles_cases prices cfg hsorted with h | h
  · rw [h]
    exact ⟨by simp, by simp, by simp⟩
  · rw [h]
    obtain ⟨hl, ha, hcn, _⟩ := findCyclesLoop_spec prices (chargeWindowSizeOf cfg)
      (dischargeWindowSizeOf cfg) cfg.efficiency cfg.minPriceSpread t0 hcont
      (calculateWindowSize_pos _ _) (calculateWindowSize_pos _ _) (effectiveMaxCycles cfg) 0
    exact ⟨ha, hcn, hl⟩

/-- Witness for the amended C1 theorem at a concrete contiguous input. -/
theorem c1_plan_cycle_invariants_witness :
    (∀ c ∈ (analyzePrices c1exPrices c1exCfg).cycles,
      c.chargeWindow.endTime.abs ≤ c.dischargeWindow.startTime.abs) ∧
    List.Chain' (fun a b => a.dischargeWindow.endTime.abs ≤ b.chargeWindow.startTime.abs)
      (analyzePrices c1exPrices c1exCfg).cycles ∧
    (analyzePrices c1exPrices c1exCfg).cycles.length ≤ effectiveMaxCycles c1exCfg :=
  c1_plan_cycle_invariants c1exPrices c1exCfg 0 (by decide)

/-- C2: one round of the cycle search.  When `findBestCycle` returns a cycle,
it is built from a charge candidate `cs` and the earliest highest-mean
discharge window `ds` strictly after that charge window; the pair passes the
qualification test `discharge_mean > charge_mean / efficiency` and
`discharge_mean − charge_mean ≥ min_spread`; its profit
`discharge_mean × efficiency − charge_mean` is maximal among all such
qualifying candidates, with ties broken toward the earliest charge start.
When it returns nothing, no candidate in range qualifies. -/
theorem c2_cycle_search_round (prices : List Price) (startIdx cw dw : ℕ) (eff ms : ℚ) :
    (∀ c, findBestCycle prices startIdx cw dw eff ms = some c →
      ∃ cs ds, startIdx ≤ cs ∧ cs + cw + dw ≤ prices.length ∧
        isBestDischarge prices dw (cs + cw) ds ∧
        qualifiesPair prices cw dw eff ms cs ds ∧
        c = mkCycleAt prices cw dw eff cs ds ∧
        c.profit = pairProfit prices cw dw eff cs ds ∧
        ∀ cs2 ds2, startIdx ≤ cs2 → cs2 + cw + dw ≤ prices.length →
          isBestDischarge prices dw (cs2 + cw) ds2 →
          qualifiesPair prices cw dw eff ms cs2 ds2 →
          pairProfit prices cw dw eff cs2 ds2 ≤ c.profit ∧
            (cs2 < cs → pairProfit prices cw dw eff cs2 ds2 < c.profit)) ∧
    (findBestCycle prices startIdx cw dw eff ms = none →
      ∀ cs ds, startIdx ≤ cs → cs + cw + dw ≤ prices.length →
        isBestDischarge prices dw (cs + cw) ds →
        ¬ qualifiesPair prices cw dw eff ms cs ds) :=
  ⟨fun c h => findBestCycle_some prices startIdx cw dw eff ms c h,
    fun h => findBestCycle_none prices startIdx cw dw eff ms h⟩

def c2exPrices : List Price :=
  [⟨⟨0, 0⟩, 5/100⟩, ⟨⟨15, 0⟩, 25/100⟩, ⟨⟨30, 0⟩, 5/100⟩, ⟨⟨45, 0⟩, 25/100⟩]

/-- Witness for the C2 theorem: the round on a concrete list returns the
cycle pairing slot 0 (charge) with slot 1 (discharge). -/
theorem c2_cycle_search_round_witness :
    ∃ cs ds, 0 ≤ cs ∧ cs + 1 + 1 ≤ c2exPrices.length ∧
      isBestDischarge c2exPrices 1 (cs + 1) ds ∧
      qualifiesPair c2exPrices 1 1 (9/10) (1/20) cs ds ∧
      (⟨⟨⟨0, 0⟩, ⟨15, 0⟩, 5/100⟩, ⟨⟨15, 0⟩, ⟨30, 0⟩, 25/100⟩, 7/40⟩ : TradeCycle) =
        mkCycleAt c2exPrices 1 1 (9/10) cs ds ∧
      (⟨⟨⟨0, 0⟩, ⟨15, 0⟩, 5/100⟩, ⟨⟨15, 0⟩, ⟨30, 0⟩, 25/100⟩, 7/40⟩ : TradeCycle).profit =
        pairProfit c2exPrices 1 1 (9/10) cs ds ∧
      ∀ cs2 ds2, 0 ≤ cs2 → cs2 + 1 + 1 ≤ c2exPrices.length →
        isBestDischarge c2exPrices 1 (cs2 + 1) ds2 →
        qualifiesPair c2exPrices 1 1 (9/10) (1/20) cs2 ds2 →
        pairProfit c2exPrices 1 1 (9/10) cs2 ds2 ≤
            (⟨⟨⟨0, 0⟩, ⟨15, 0⟩, 5/100⟩, ⟨⟨15, 0⟩, ⟨30, 0⟩, 25/100⟩, 7/40⟩ : TradeCycle).profit ∧
          (cs2 < cs → pairProfit c2exPrices 1 1 (9/10) cs2 ds2 <
            (⟨⟨⟨0, 0⟩, ⟨15, 0⟩, 5/100⟩, ⟨⟨15, 0⟩, ⟨30, 0⟩, 25/100⟩, 7/40⟩ : TradeCycle).profit) :=
  (c2_cycle_search_round c2exPrices 0 1 1 (9/10) (1/20)).1
    ⟨⟨⟨0, 0⟩, ⟨15, 0⟩, 5/100⟩, ⟨⟨15, 0⟩, ⟨30, 0⟩, 25/100⟩, 7/40⟩ (by decide)

/-- C5: the required window size in 15-minute slots is
`ceil(usable / power_kW × 4)` clamped to at least one slot, with non-positive
power falling back to 8 slots (2 hours); `AnalyzePrices` applies it to the
usable capacity `capacity × (1 − minSOC)`; and the boundary instances:
5.12 kWh, min-SOC 0.11, 2500 W give 8 slots while 5.12 kWh raw gives 9. -/
theorem c5_window_sizing :
    (∀ cfg : AnalyzerConfig,
      chargeWindowSizeOf cfg =
        calculateWindowSize (cfg.batteryCapacityKWh * (1 - cfg.batteryMinSOC)) cfg.chargePowerW ∧
      dischargeWindowSizeOf cfg =
        calculateWindowSize (cfg.batteryCapacityKWh * (1 - cfg.batteryMinSOC)) cfg.dischargePowerW) ∧
    (∀ (usable : ℚ) (p : ℤ), 0 < p →
      (calculateWindowSize usable p : ℤ) = max 1 (ceilQ (usable / ((p : ℚ) / 1000) * 4))) ∧
    (∀ (cap : ℚ) (p : ℤ), p ≤ 0 → calculateWindowSize cap p = 8) ∧
    calculateWindowSize (512/100 * (1 - 11/100)) 2500 = 8 ∧
    calculateWindowSize (512/100) 2500 = 9 := by
  refine ⟨fun cfg => ⟨rfl, rfl⟩, ?_, ?_, by decide, by decide⟩
  · intro usable p hp
    rw [calculateWindowSize, if_neg (by omega)]
    dsimp only
    split <;> omega
  · intro cap p hp
    rw [calculateWindowSize, if_pos hp]

/-- Witness for C5 at the configured battery values. -/
theorem c5_window_sizing_witness :
    ((calculateWindowSize (512/100 * (1 - 11/100)) 2500 : ℤ) =
      max 1 (ceilQ (512/100 * (1 - 11/100) / ((2500 : ℚ) / 1000) * 4))) ∧
    calculateWindowSize (512/100) 0 = 8 :=
  ⟨c5_window_sizing.2.1 (512/100 * (1 - 11/100)) 2500 (by decide),
    c5_window_sizing.2.2.1 (512/100) 0 (by decide)⟩

/-- C6: a non-empty price list shorter than a required window yields a plan
carrying only the date and the min/max/spread of the input — no windows, no
cycles, not profitable; and on every input `IsProfitable` is true exactly
when at least one cycle was found. -/
theorem c6_short_input_and_profitable_iff (prices : List Price) (cfg : AnalyzerConfig) :
    (prices ≠ [] →
      (prices.length < chargeWindowSizeOf cfg ∨ prices.length < dischargeWindowSizeOf cfg) →
      analyzePrices prices cfg =
        { date := localMidnight ((sortByTime prices).getD 0 dfltPrice).time
          chargeWindows := [], dischargeWindows := [], cycles := []
          minPrice := listMinPrice (sortByTime prices) ((sortByTime prices).getD 0 dfltPrice).value
          maxPrice := listMaxPrice (sortByTime prices) ((sortByTime prices).getD 0 dfltPrice).value
          spread := listMaxPrice (sortByTime prices) ((sortByTime prices).getD 0 dfltPrice).value -
            listMinPrice (sortByTime prices) ((sortByTime prices).getD 0 dfltPrice).value
          isProfitable := false }) ∧
    ((analyzePrices prices cfg).isProfitable = true ↔ (analyzePrices prices cfg).cycles ≠ []) := by
  constructor
  · intro hne hshort
    rw [analyzePrices, if_neg (by simpa using hne)]
    simp only [planFromSorted]
    rw [if_pos (by rw [sortByTime_length]; exact hshort)]
  · rw [analyzePrices]
    by_cases he : prices.isEmpty
    · rw [if_pos he]
      simp [zeroPlan]
    · rw [if_neg he]
      simp only [planFromSorted]
      by_cases hshort : (sortByTime prices).length < chargeWindowSizeOf cfg ∨
          (sortByTime prices).length < dischargeWindowSizeOf cfg
      · rw [if_pos hshort]
        simp
      · rw [if_neg hshort]
        simp only [decide_eq_true_eq]
        exact ⟨fun h => List.ne_nil_of_length_pos h, fun h => List.length_pos_of_ne_nil h⟩

def c6exPrices : List Price := [⟨⟨1500, 0⟩, 1/4⟩]

def c6exCfg : AnalyzerConfig :=
  { efficiency := 9/10, minPriceSpread := 1/20, batteryCapacityKWh := 5
    batteryMinSOC := 1/10, chargePowerW := 0, dischargePowerW := 0
    maxCyclesPerDay := 2 }

/-- Witness for C6 on a one-slot input with an 8-slot required window. -/
theorem c6_short_input_and_profitable_iff_witness :
    analyzePrices c6exPrices c6exCfg =
      { date := localMidnight ((sortByTime c6exPrices).getD 0 dfltPrice).time
        chargeWindows := [], dischargeWindows := [], cycles := []
        minPrice := listMinPrice (sortByTime c6exPrices) ((sortByTime c6exPrices).getD 0 dfltPrice).value
        maxPrice := listMaxPrice (sortByTime c6exPrices) ((sortByTime c6exPrices).getD 0 dfltPrice).value
        spread := listMaxPrice (sortByTime c6exPrices) ((sortByTime c6exPrices).getD 0 dfltPrice).value -
          listMinPrice (sortByTime c6exPrices) ((sortByTime c6exPrices).getD 0 dfltPrice).value
        isProfitable := false } :=
  (c6_short_input_and_profitable_iff c6exPrices c6exCfg).1 (by decide) (by decide)

def c10exPrices : List Price := [⟨⟨1500, 0⟩, 1/4⟩]

def c10exCfg : AnalyzerConfig :=
  { efficiency := 9/10, minPriceSpread := 1/20, batteryCapacityKWh := 5
    batteryMinSOC := 1/10, chargePowerW := 0, dischargePowerW := 0
    maxCyclesPerDay := 2 }

/-- C10: the empty price list yields the zero-value plan (zero date, no
windows, no cycles, zero min/max/spread, not profitable), which differs in
shape from an insufficient-data plan, shown here carrying the input's date
and min/max. -/
theorem c10_empty_input_zero_plan :
    (∀ cfg : AnalyzerConfig, analyzePrices [] cfg = zeroPlan) ∧
    zeroPlan = ⟨⟨0, 0⟩, [], [], [], 0, 0, 0, false⟩ ∧
    analyzePrices c10exPrices c10exCfg =
      { date := ⟨1440, 0⟩, chargeWindows := [], dischargeWindows := [], cycles := []
        minPrice := 1/4, maxPrice := 1/4, spread := 0, isProfitable := false } ∧
    decide (analyzePrices c10exPrices c10exCfg = analyzePrices [] c10exCfg) = false := by
  refine ⟨fun cfg => rfl, rfl, by decide, by decide⟩

/-- C3: the discharge-profitability gate fires exactly when a cost basis is
known (`lastChargePrice ≠ 0`) and the price beats `lastChargePrice / efficiency`;
with no recorded charge the gate always blocks; and at efficiency 0.90 with
cost basis 0.10, price 0.11 is rejected while 0.12 is accepted. -/
theorem c3_discharge_gate (lcp eff p : ℚ) (heff : 0 < eff) :
    (isDischargeProfitiable lcp eff p = true ↔ lcp ≠ 0 ∧ lcp / eff < p) ∧
    (∀ q : ℚ, isDischargeProfitiable 0 eff q = false) ∧
    isDischargeProfitiable (1/10) (9/10) (11/100) = false ∧
    isDischargeProfitiable (1/10) (9/10) (12/100) = true := by
  refine ⟨?_, fun q => by simp [isDischargeProfitiable], by decide, by decide⟩
  rw [isDischargeProfitiable]
  split
  · rename_i h
    simp [h]
  · rename_i h
    simp [h]

/-- Witness for C3 at the spec's boundary values. -/
theorem c3_discharge_gate_witness :
    (isDischargeProfitiable (1/10) (9/10) (12/100) = true ↔
      (1/10 : ℚ) ≠ 0 ∧ (1/10 : ℚ) / (9/10) < 12/100) ∧
    isDischargeProfitiable 0 (9/10) (1/4) = false :=
  ⟨(c3_discharge_gate (1/10) (9/10) (12/100) (by decide)).1,
    (c3_discharge_gate (1/10) (9/10) (12/100) (by decide)).2.1 (1/4)⟩

/-- C4: a tick never issues a charging command (direct or passive-mode
refresh) when the battery reports SOC ≥ 100 inside a charge window — the
engine ends the tick idle; and it never issues a discharging command when the
battery is at or below the configured minimum-SOC floor inside a discharge
window.  The hypotheses record the coherence of a real tick: a price exists
for the current slot, the plan's windows do not overlap at `now`, and the
configured charge power is non-negative. -/
theorem c4_tick_soc_safety (cfg : AnalyzerConfig) (st : State) (pl : TradingPlan)
    (todayPrices : List Price) (now : Tm) (soc : ℤ) (chargingFlag dischargFlag : Bool)
    (lastChargePrice : ℚ) (refreshDue : Bool) :
    (∀ q, getCurrentPrice todayPrices now = some q →
      isInChargeWindow pl now = true → isInDischargeWindow pl now = false →
      100 ≤ soc →
      (tick cfg st (some pl) todayPrices now soc chargingFlag dischargFlag
          lastChargePrice refreshDue).1 = State.idle ∧
      ∀ c, (tick cfg st (some pl) todayPrices now soc chargingFlag dischargFlag
          lastChargePrice refreshDue).2 = some c → isChargeCmd c = false) ∧
    (0 ≤ cfg.chargePowerW → isInDischargeWindow pl now = true → soc ≤ minSOCOf cfg →
      ∀ c, (tick cfg st (some pl) todayPrices now soc chargingFlag dischargFlag
          lastChargePrice refreshDue).2 = some c → isDischargeCmd c = false) := by
  constructor
  · intro q hq hinC hinD hsoc
    rw [tick]
    by_cases hst : shouldTrade pl = false
    · rw [if_pos hst]
      refine ⟨rfl, ?_⟩
      intro c hc
      by_cases hsi : st = State.idle
      · rw [if_pos hsi] at hc
        exact absurd hc (by simp)
      · rw [if_neg hsi] at hc
        simp only [Option.some.injEq] at hc
        rw [← hc]
        rfl
    · rw [if_neg hst, hq]
      dsimp only
      cases st with
      | idle =>
        dsimp only
        rw [hinC, if_pos rfl, if_pos hsoc]
        exact ⟨rfl, fun c hc => absurd hc (by simp)⟩
      | charging =>
        dsimp only
        rw [hinC, if_neg (show ¬(true = false) by simp), if_pos hsoc]
        refine ⟨rfl, ?_⟩
        intro c hc
        simp only [Option.some.injEq] at hc
        rw [← hc]
        rfl
      | discharging =>
        dsimp only
        rw [hinD, if_pos rfl]
        refine ⟨rfl, ?_⟩
        intro c hc
        simp only [Option.some.injEq] at hc
        rw [← hc]
        rfl
  · intro hpw hinD hsoc c hc
    rw [tick] at hc
    by_cases hst : shouldTrade pl = false
    · rw [if_pos hst] at hc
      by_cases hsi : st = State.idle
      · rw [if_pos hsi] at hc
        exact absurd hc (by simp)
      · rw [if_neg hsi] at hc
        simp only [Option.some.injEq] at hc
        rw [← hc]
        rfl
    · rw [if_neg hst] at hc
      cases hcp : getCurrentPrice todayPrices now with
      | none =>
        rw [hcp] at hc
        exact absurd hc (by simp)
      | some q =>
        rw [hcp] at hc
        dsimp only at hc
        cases st with
        | idle =>
          dsimp only at hc
          by_cases hinC : isInChargeWindow pl now = true
          · rw [hinC, if_pos rfl] at hc
            by_cases h100 : (100 : ℤ) ≤ soc
            · rw [if_pos h100] at hc
              exact absurd hc (by simp)
            · rw [if_neg h100] at hc
              by_cases hcf : chargingFlag = false
              · rw [if_pos hcf] at hc
                exact absurd hc (by simp)
              · rw [if_neg hcf] at hc
                simp only [Option.some.injEq] at hc
                rw [← hc]
                rfl
          · rw [Bool.not_eq_true] at hinC
            rw [hinC, if_neg (show ¬(false = true) by simp), hinD, if_pos rfl,
              if_pos hsoc] at hc
            exact absurd hc (by simp)
        | charging =>
          dsimp only at hc
          by_cases hinC : isInChargeWindow pl now = false
          · rw [hinC, if_pos rfl] at hc
            simp only [Option.some.injEq] at hc
            rw [← hc]
            rfl
          · rw [Bool.not_eq_false] at hinC
            rw [hinC, if_neg (show ¬(true = false) by simp)] at hc
            by_cases h100 : (100 : ℤ) ≤ soc
            · rw [if_pos h100] at hc
              simp only [Option.some.injEq] at hc
              rw [← hc]
              rfl
            · rw [if_neg h100] at hc
              by_cases hrd : refreshDue = true
              · rw [hrd, if_pos rfl] at hc
                simp only [Option.some.injEq] at hc
                rw [← hc]
                simp only [isDischargeCmd]
                simp
                omega
              · rw [Bool.not_eq_true] at hrd
                rw [hrd, if_neg (show ¬(false = true) by simp)] at hc
                exact absurd hc (by simp)
        | discharging =>
          dsimp only at hc
          rw [hinD, if_neg (show ¬(true = false) by simp), if_pos hsoc] at hc
          simp only [Option.some.injEq] at hc
          rw [← hc]
          rfl

def c4exPlan : TradingPlan :=
  { date := ⟨0, 0⟩
    chargeWindows := [⟨⟨0, 0⟩, ⟨15, 0⟩, 1/20⟩]
    dischargeWindows := [⟨⟨30, 0⟩, ⟨45, 0⟩, 1/4⟩]
    cycles := [⟨⟨⟨0, 0⟩, ⟨15, 0⟩, 1/20⟩, ⟨⟨30, 0⟩, ⟨45, 0⟩, 1/4⟩, 7/40⟩]
    minPrice := 1/20, maxPrice := 1/4, spread := 1/5, isProfitable := true }

def c4exCfg : AnalyzerConfig :=
  { efficiency := 9/10, minPriceSpread := 1/20, batteryCapacityKWh := 512/100
    batteryMinSOC := 11/100, chargePowerW := 2500, dischargePowerW := 2500
    maxCyclesPerDay := 2 }

def c4exPrices : List Price :=
  [⟨⟨0, 0⟩, 1/20⟩, ⟨⟨15, 0⟩, 1/10⟩, ⟨⟨30, 0⟩, 1/4⟩, ⟨⟨45, 0⟩, 1/10⟩]

/-- Witness for C4: a full battery in the charge window is left idle without
a command; a battery at the floor in the discharge window draws no discharge
command. -/
theorem c4_tick_soc_safety_witness :
    ((tick c4exCfg State.idle (some c4exPlan) c4exPrices ⟨5, 0⟩ 100 true true (1/20) false).1 =
        State.idle ∧
      ∀ c, (tick c4exCfg State.idle (some c4exPlan) c4exPrices ⟨5, 0⟩ 100 true true
          (1/20) false).2 = some c → isChargeCmd c = false) ∧
    ∀ c, (tick c4exCfg State.idle (some c4exPlan) c4exPrices ⟨35, 0⟩ 11 true true
        (1/20) false).2 = some c → isDischargeCmd c = false :=
  ⟨(c4_tick_soc_safety c4exCfg State.idle c4exPlan c4exPrices ⟨5, 0⟩ 100 true true
      (1/20) false).1 (1/20) (by decide) (by decide) (by decide) (by decide),
    (c4_tick_soc_safety c4exCfg State.idle c4exPlan c4exPrices ⟨35, 0⟩ 11 true true
      (1/20) false).2 (by decide) (by decide) (by decide)⟩

theorem avgStep_eq (s e : ℚ) (a : ℚ × ℚ) (p : Price) :
    avgStep s e a p =
      (a.1 + p.value * overlapLen s e p.time.abs, a.2 + overlapLen s e p.time.abs) := by
  rw [avgStep, overlapLen]
  by_cases h1 : p.time.abs < e ∧ s < p.time.abs + 15
  · rw [if_pos h1]
    dsimp only
    by_cases h2 : 0 < min e (p.time.abs + 15) - max s p.time.abs
    · rw [if_pos h2, max_eq_right (le_of_lt h2)]
    · rw [if_neg h2, max_eq_left (le_of_not_lt h2)]
      simp
  · rw [if_neg h1]
    have hle : min e (p.time.abs + 15) - max s p.time.abs ≤ 0 := by
      rw [Decidable.not_and_iff_or_not] at h1
      rcases h1 with h | h
      · push_neg at h
        have : min e (p.time.abs + 15) ≤ max s p.time.abs :=
          le_trans (min_le_left _ _) (le_trans h (le_max_right _ _))
        linarith
      · push_neg at h
        have : min e (p.time.abs + 15) ≤ max s p.time.abs :=
          le_trans (min_le_right _ _) (le_trans h (le_max_left _ _))
        linarith
    rw [max_eq_left hle]
    simp

theorem avgStep_foldl (s e : ℚ) (ps : List Price) :
    ∀ (a b : ℚ),
      ps.foldl (avgStep s e) (a, b) =
        (a + (ps.map fun p => p.value * overlapLen s e p.time.abs).sum,
          b + (ps.map fun p => overlapLen s e p.time.abs).sum) := by
  induction ps with
  | nil => intro a b; simp
  | cons p ps ih =>
    intro a b
    rw [List.foldl_cons, avgStep_eq, ih]
    rw [List.map_cons, List.map_cons, List.sum_cons, List.sum_cons, Prod.mk.injEq]
    constructor <;> ring

/-- `calculateAveragePrice` computes exactly the spec's time-weighted
overlap average. -/
theorem calculateAveragePrice_eq_timeWeightedAvg (ps : List Price) (start fin : Tm) :
    calculateAveragePrice ps start fin = timeWeightedAvg ps start fin := by
  rw [calculateAveragePrice, timeWeightedAvg]
  by_cases he : ps.isEmpty
  · rw [if_pos he]
    have hnil : ps = [] := by
      cases ps with
      | nil => rfl
      | cons x xs => exact absurd he (by simp)
    subst hnil
    simp
  · rw [if_neg he, avgStep_foldl]
    simp

def c7exCfg : AnalyzerConfig :=
  { efficiency := 9/10, minPriceSpread := 1/20, batteryCapacityKWh := 512/100
    batteryMinSOC := 11/100, chargePowerW := 2500, dischargePowerW := 2500
    maxCyclesPerDay := 2 }

/-- Negative-then-positive prices whose session-weighted average is exactly
zero: the code then falls back to the session's start price. -/
def c7exPrices : List Price := [⟨⟨0, 0⟩, -1/10⟩, ⟨⟨15, 0⟩, 1/10⟩]

/-- C7, counterexample: a charge session fully covering one slot at −0.10 and
one at +0.10 EUR/kWh has time-weighted average 0, but the recorded trade
carries the session's start price −0.10, not that average. -/
theorem c7_counterexample :
    timeWeightedAvg c7exPrices ⟨0, 0⟩ ⟨30, 0⟩ = 0 ∧
    (stopChargingTrade c7exCfg c7exPrices ⟨0, 0⟩ (-1/10) 50 ⟨30, 0⟩ 80).1.priceEUR = -1/10 ∧
    ((-1/10 : ℚ) ≠ 0) := by
  refine ⟨by decide, by decide, by decide⟩

/-- The session of the amended C7 theorem's concrete clause: one and a half
slots, so the weighted average (1/6) differs from the window's static mean
(1/5). -/
def c7sexPrices : List Price := [⟨⟨0, 0⟩, 1/10⟩, ⟨⟨15, 0⟩, 3/10⟩]

/-- C7 (amended): when the computed time-weighted session average is nonzero,
the recorded charge trade carries that average as its price (not the window's
static mean — witnessed by the concrete clause where the two differ), its
energy is charge power × session duration, and the cost basis is updated to
the same value; when the weighted average is exactly zero the session's start
price is recorded instead. -/
theorem c7_stop_charging_trade (cfg : AnalyzerConfig) (ps : List Price) (tradeStart : Tm)
    (tradePrice : ℚ) (ssoc : ℤ) (now : Tm) (esoc : ℤ)
    (havg : calculateAveragePrice ps tradeStart now ≠ 0) :
    (stopChargingTrade cfg ps tradeStart tradePrice ssoc now esoc).1.priceEUR =
      timeWeightedAvg ps tradeStart now ∧
    (stopChargingTrade cfg ps tradeStart tradePrice ssoc now esoc).2 =
      timeWeightedAvg ps tradeStart now ∧
    (stopChargingTrade cfg ps tradeStart tradePrice ssoc now esoc).1.energyKWh =
      (cfg.chargePowerW : ℚ) * ((now.abs - tradeStart.abs) / 60) / 1000 ∧
    (stopChargingTrade cfg ps tradeStart tradePrice ssoc now esoc).1.timestamp = tradeStart ∧
    (stopChargingTrade cfg ps tradeStart tradePrice ssoc now esoc).1.action = TradeAction.charge ∧
    timeWeightedAvg c7sexPrices ⟨0, 0⟩ ⟨45/2, 0⟩ = 1/6 ∧
    windowAverage c7sexPrices 0 2 = 1/5 := by
  have hp : (stopChargingTrade cfg ps tradeStart tradePrice ssoc now esoc).1.priceEUR =
      calculateAveragePrice ps tradeStart now := by
    rw [stopChargingTrade]
    dsimp only
    rw [if_neg havg]
  have hq : (stopChargingTrade cfg ps tradeStart tradePrice ssoc now esoc).2 =
      calculateAveragePrice ps tradeStart now := by
    rw [stopChargingTrade]
    dsimp only
    rw [if_neg havg]
  refine ⟨?_, ?_, rfl, rfl, rfl, by decide, by decide⟩
  · rw [hp, calculateAveragePrice_eq_timeWeightedAvg]
  · rw [hq, calculateAveragePrice_eq_timeWeightedAvg]

/-- Witness for the amended C7 theorem on a session with nonzero average. -/
theorem c7_stop_charging_trade_witness :
    (stopChargingTrade c7exCfg c7sexPrices ⟨0, 0⟩ (1/10) 20 ⟨45/2, 0⟩ 60).1.priceEUR =
      timeWeightedAvg c7sexPrices ⟨0, 0⟩ ⟨45/2, 0⟩ ∧
    (stopChargingTrade c7exCfg c7sexPrices ⟨0, 0⟩ (1/10) 20 ⟨45/2, 0⟩ 60).2 =
      timeWeightedAvg c7sexPrices ⟨0, 0⟩ ⟨45/2, 0⟩ ∧
    (stopChargingTrade c7exCfg c7sexPrices ⟨0, 0⟩ (1/10) 20 ⟨45/2, 0⟩ 60).1.energyKWh =
      (c7exCfg.chargePowerW : ℚ) * (((⟨45/2, 0⟩ : Tm).abs - (⟨0, 0⟩ : Tm).abs) / 60) / 1000 ∧
    (stopChargingTrade c7exCfg c7sexPrices ⟨0, 0⟩ (1/10) 20 ⟨45/2, 0⟩ 60).1.timestamp = ⟨0, 0⟩ ∧
    (stopChargingTrade c7exCfg c7sexPrices ⟨0, 0⟩ (1/10) 20 ⟨45/2, 0⟩ 60).1.action =
      TradeAction.charge ∧
    timeWeightedAvg c7sexPrices ⟨0, 0⟩ ⟨45/2, 0⟩ = 1/6 ∧
    windowAverage c7sexPrices 0 2 = 1/5 :=
  c7_stop_charging_trade c7exCfg c7sexPrices ⟨0, 0⟩ (1/10) 20 ⟨45/2, 0⟩ 60 (by decide)

theorem insertDesc_perm (k : ℤ) (l : List ℤ) : (insertDesc k l).Perm (k :: l) := by
  induction l with
  | nil => exact List.Perm.refl _
  | cons j js ih =>
    rw [insertDesc]
    split
    · exact List.Perm.refl _
    · exact List.Perm.trans (List.Perm.cons j ih) (List.Perm.swap k j js)

theorem sortDesc_perm (l : List ℤ) : (sortDesc l).Perm l := by
  induction l with
  | nil => exact List.Perm.refl _
  | cons k ks ih =>
    rw [sortDesc, List.foldr_cons]
    exact List.Perm.trans (insertDesc_perm k _) (List.Perm.cons k ih)

theorem mem_sortDesc (x : ℤ) (l : List ℤ) : x ∈ sortDesc l ↔ x ∈ l :=
  (sortDesc_perm l).mem_iff

theorem sortDesc_nodup (l : List ℤ) (h : l.Nodup) : (sortDesc l).Nodup :=
  ((sortDesc_perm l).nodup_iff).mpr h

theorem historyKeys_nodup (trades : List Trade) : (historyKeys trades).Nodup :=
  sortDesc_nodup _ (List.nodup_dedup _)

theorem mem_historyKeys (trades : List Trade) (t : Trade) (h : t ∈ trades) :
    dayKey t.timestamp ∈ historyKeys trades := by
  rw [historyKeys, mem_sortDesc, List.mem_dedup]
  exact List.mem_map_of_mem (fun t => dayKey t.timestamp) h

theorem sum_map_sub (K : List ℤ) (f g : ℤ → ℚ) :
    (K.map fun k => f k - g k).sum = (K.map f).sum - (K.map g).sum := by
  induction K with
  | nil => simp
  | cons k ks ih =>
    rw [List.map_cons, List.map_cons, List.map_cons, List.sum_cons, List.sum_cons,
      List.sum_cons, ih]
    ring

theorem sum_filter_head (f : Trade → ℚ) (key : Trade → ℤ) (t : Trade) (l : List Trade) :
    ∀ K : List ℤ, K.Nodup → key t ∈ K →
      (K.map fun k => (((t :: l).filter fun x => key x = k).map f).sum).sum =
        f t + (K.map fun k => ((l.filter fun x => key x = k).map f).sum).sum := by
  intro K
  induction K with
  | nil => intro _ habs; exact absurd habs (by simp)
  | cons k ks ih =>
    intro hnd hmem
    rw [List.map_cons, List.map_cons, List.sum_cons, List.sum_cons]
    by_cases hk : key t = k
    · have hfil : (t :: l).filter (fun x => key x = k) =
          t :: l.filter (fun x => key x = k) := by
        rw [List.filter_cons, if_pos (by simp [hk])]
      rw [hfil, List.map_cons, List.sum_cons]
      have hks : ∀ k2 ∈ ks, ((t :: l).filter fun x => key x = k2) =
          (l.filter fun x => key x = k2) := by
        intro k2 hk2
        have hne : key t ≠ k2 := by
          rw [hk]
          intro heq
          rw [heq] at hnd
          exact (List.nodup_cons.mp hnd).1 hk2
        rw [List.filter_cons, if_neg (by simp [hne])]
      have hmapeq : (ks.map fun k2 => (((t :: l).filter fun x => key x = k2).map f).sum) =
          (ks.map fun k2 => ((l.filter fun x => key x = k2).map f).sum) :=
        List.map_congr_left fun k2 hk2 => by rw [hks k2 hk2]
      rw [hmapeq]
      ring
    · have hfil : (t :: l).filter (fun x => key x = k) =
          l.filter (fun x => key x = k) := by
        rw [List.filter_cons, if_neg (by simp [hk])]
      have hmem2 : key t ∈ ks := by
        rcases List.mem_cons.mp hmem with h | h
        · exact absurd h hk
        · exact h
      rw [hfil, ih (List.nodup_cons.mp hnd).2 hmem2]
      ring

theorem sum_filter_partition (f : Trade → ℚ) (key : Trade → ℤ) :
    ∀ (l : List Trade) (K : List ℤ), K.Nodup → (∀ t ∈ l, key t ∈ K) →
      (K.map fun k => ((l.filter fun x => key x = k).map f).sum).sum = (l.map f).sum := by
  intro l
  induction l with
  | nil =>
    intro K _ _
    simp
  | cons t l ih =>
    intro K hnd hcov
    rw [sum_filter_head f key t l K hnd (hcov t (List.mem_cons_self t l)),
      ih K hnd (fun x hx => hcov x (List.mem_cons_of_mem t hx))]
    rw [List.map_cons, List.sum_cons]

theorem filter_day_comm (trades : List Trade) (p : Trade → Bool) (k : ℤ) :
    (tradesOnDay trades k).filter p =
      (trades.filter p).filter fun t => dayKey t.timestamp = k := by
  rw [tradesOnDay, List.filter_filter, List.filter_filter]
  exact List.filter_congr fun a ha => by rw [Bool.and_comm]

/-- C8: per day, the summary's PnL is discharge revenue minus charge cost and
the average prices are energy-weighted (`Σ price·energy / Σ energy`); and the
raw cross-trade total of `GetTotalPnL` equals the sum of the per-day PnL
figures exactly. -/
theorem c8_ledger_aggregation (trades : List Trade) :
    (∀ k : ℤ, (daySummary trades k).pnlEUR =
      (((tradesOnDay trades k).filter fun t => t.action = TradeAction.discharge).map
        fun t => t.priceEUR * t.energyKWh).sum -
      (((tradesOnDay trades k).filter fun t => t.action = TradeAction.charge).map
        fun t => t.priceEUR * t.energyKWh).sum) ∧
    (∀ k : ℤ, (daySummary trades k).chargedKWh ≠ 0 →
      (daySummary trades k).avgChargePrice =
        (((tradesOnDay trades k).filter fun t => t.action = TradeAction.charge).map
          fun t => t.priceEUR * t.energyKWh).sum /
        (((tradesOnDay trades k).filter fun t => t.action = TradeAction.charge).map
          fun t => t.energyKWh).sum) ∧
    (∀ k : ℤ, (daySummary trades k).dischargedKWh ≠ 0 →
      (daySummary trades k).avgDischargePrice =
        (((tradesOnDay trades k).filter fun t => t.action = TradeAction.discharge).map
          fun t => t.priceEUR * t.energyKWh).sum /
        (((tradesOnDay trades k).filter fun t => t.action = TradeAction.discharge).map
          fun t => t.energyKWh).sum) ∧
    getTotalPnL trades = historyTotalPnL trades := by
  refine ⟨fun k => rfl, ?_, ?_, ?_⟩
  · intro k h
    have h' : (((tradesOnDay trades k).filter fun t => t.action = TradeAction.charge).map
        fun t => t.energyKWh).sum ≠ 0 := h
    show (if (((tradesOnDay trades k).filter fun t => t.action = TradeAction.charge).map
        fun t => t.energyKWh).sum = 0 then 0 else _) = _
    rw [if_neg h']
  · intro k h
    have h' : (((tradesOnDay trades k).filter fun t => t.action = TradeAction.discharge).map
        fun t => t.energyKWh).sum ≠ 0 := h
    show (if (((tradesOnDay trades k).filter fun t => t.action = TradeAction.discharge).map
        fun t => t.energyKWh).sum = 0 then 0 else _) = _
    rw [if_neg h']
  · have hpnl : ∀ k : ℤ, (daySummary trades k).pnlEUR =
        (((trades.filter fun t => t.action = TradeAction.discharge).filter
            fun t => dayKey t.timestamp = k).map fun t => t.priceEUR * t.energyKWh).sum -
        (((trades.filter fun t => t.action = TradeAction.charge).filter
            fun t => dayKey t.timestamp = k).map fun t => t.priceEUR * t.energyKWh).sum := by
      intro k
      have h1 := filter_day_comm trades (fun t => t.action = TradeAction.discharge) k
      have h2 := filter_day_comm trades (fun t => t.action = TradeAction.charge) k
      show (((tradesOnDay trades k).filter fun t => t.action = TradeAction.discharge).map
          fun t => t.priceEUR * t.energyKWh).sum -
        (((tradesOnDay trades k).filter fun t => t.action = TradeAction.charge).map
          fun t => t.priceEUR * t.energyKWh).sum = _
      rw [h1, h2]
    have hperm := sortDesc_perm ((trades.map fun t => dayKey t.timestamp).dedup)
    rw [historyTotalPnL, getHistoryDays, List.map_map]
    have hmapc : (historyKeys trades).map ((fun d => d.pnlEUR) ∘ daySummary trades) =
        (historyKeys trades).map (fun k =>
          (((trades.filter fun t => t.action = TradeAction.discharge).filter
              fun t => dayKey t.timestamp = k).map fun t => t.priceEUR * t.energyKWh).sum -
          (((trades.filter fun t => t.action = TradeAction.charge).filter
              fun t => dayKey t.timestamp = k).map fun t => t.priceEUR * t.energyKWh).sum) :=
      List.map_congr_left fun k _ => hpnl k
    rw [hmapc]
    have hsum := (hperm.map (fun k =>
      (((trades.filter fun t => t.action = TradeAction.discharge).filter
          fun t => dayKey t.timestamp = k).map fun t => t.priceEUR * t.energyKWh).sum -
      (((trades.filter fun t => t.action = TradeAction.charge).filter
          fun t => dayKey t.timestamp = k).map fun t => t.priceEUR * t.energyKWh).sum)).sum_eq
    rw [show historyKeys trades =
        sortDesc ((trades.map fun t => dayKey t.timestamp).dedup) from rfl, hsum,
      sum_map_sub]
    rw [sum_filter_partition (fun t => t.priceEUR * t.energyKWh)
        (fun t => dayKey t.timestamp)
        (trades.filter fun t => t.action = TradeAction.discharge)
        ((trades.map fun t => dayKey t.timestamp).dedup)
        (List.nodup_dedup _)
        (fun t ht => List.mem_dedup.mpr
          (List.mem_map_of_mem _ (List.mem_of_mem_filter ht)))]
    rw [sum_filter_partition (fun t => t.priceEUR * t.energyKWh)
        (fun t => dayKey t.timestamp)
        (trades.filter fun t => t.action = TradeAction.charge)
        ((trades.map fun t => dayKey t.timestamp).dedup)
        (List.nodup_dedup _)
        (fun t ht => List.mem_dedup.mpr
          (List.mem_map_of_mem _ (List.mem_of_mem_filter ht)))]
    rfl

def c8exTrades : List Trade :=
  [⟨⟨60, 0⟩, TradeAction.charge, 1/10, 2500, 3600, 5/2, 20, 60⟩,
    ⟨⟨120, 0⟩, TradeAction.charge, 2/10, 2500, 1800, 5/4, 60, 80⟩,
    ⟨⟨600, 0⟩, TradeAction.discharge, 3/10, 2500, 3600, 5/2, 80, 40⟩]

/-- Witness for C8 on a day with two unequal charge trades and a discharge. -/
theorem c8_ledger_aggregation_witness :
    ((daySummary c8exTrades 0).avgChargePrice =
      (((tradesOnDay c8exTrades 0).filter fun t => t.action = TradeAction.charge).map
        fun t => t.priceEUR * t.energyKWh).sum /
      (((tradesOnDay c8exTrades 0).filter fun t => t.action = TradeAction.charge).map
        fun t => t.energyKWh).sum) ∧
    getTotalPnL c8exTrades = historyTotalPnL c8exTrades :=
  ⟨(c8_ledger_aggregation c8exTrades).2.1 0 (by decide),
    (c8_ledger_aggregation c8exTrades).2.2.2⟩

/-- C9 (amended): `GetHistory` groups two trades into the same daily summary
exactly when their timestamps fall on the same calendar date in the location
each timestamp itself carries — not the Recorder's configured timezone. -/
theorem c9_same_day_grouping (trades : List Trade) (t1 t2 : Trade)
    (h1 : t1 ∈ trades) (h2 : t2 ∈ trades) :
    inSameDaySummary trades t1 t2 ↔ dayKey t1.timestamp = dayKey t2.timestamp := by
  constructor
  · rintro ⟨d, hd, ht1, ht2⟩
    rw [getHistoryDays] at hd
    obtain ⟨k, hk, rfl⟩ := List.mem_map.mp hd
    have ht1' : t1 ∈ tradesOnDay trades k := ht1
    have ht2' : t2 ∈ tradesOnDay trades k := ht2
    rw [tradesOnDay] at ht1' ht2'
    have e1 := (List.mem_filter.mp ht1').2
    have e2 := (List.mem_filter.mp ht2').2
    simp only [decide_eq_true_eq] at e1 e2
    rw [e1, e2]
  · intro heq
    refine ⟨daySummary trades (dayKey t1.timestamp), ?_, ?_, ?_⟩
    · rw [getHistoryDays]
      exact List.mem_map_of_mem _ (mem_historyKeys trades t1 h1)
    · show t1 ∈ tradesOnDay trades (dayKey t1.timestamp)
      rw [tradesOnDay]
      exact List.mem_filter.mpr ⟨h1, by simp⟩
    · show t2 ∈ tradesOnDay trades (dayKey t1.timestamp)
      rw [tradesOnDay]
      exact List.mem_filter.mpr ⟨h2, by simp [heq]⟩

/-- Same instant, different carried offsets: midnight UTC and an hour-earlier
wall clock (offset −60 minutes). -/
def c9exT1 : Trade := ⟨⟨0, 0⟩, TradeAction.charge, 1/10, 2500, 3600, 5/2, 20, 80⟩

def c9exT2 : Trade := ⟨⟨0, -60⟩, TradeAction.discharge, 1/4, 2500, 3600, 5/2, 80, 20⟩

/-- C9, counterexample: two trades at the same instant (equal absolute
times), on the same calendar day of the configured location (offset 0), land
in different daily summaries because `GetHistory` formats each timestamp in
its own carried location. -/
theorem c9_counterexample :
    c9exT1.timestamp.abs = c9exT2.timestamp.abs ∧
    dayKeyInLoc 0 c9exT1.timestamp = dayKeyInLoc 0 c9exT2.timestamp ∧
    ¬ inSameDaySummary [c9exT1, c9exT2] c9exT1 c9exT2 := by
  refine ⟨rfl, by decide, by decide⟩

/-- Two same-day trades of the C9 witness. -/
def c9exT3 : Trade := ⟨⟨60, 0⟩, TradeAction.charge, 1/10, 2500, 3600, 5/2, 20, 60⟩

def c9exT4 : Trade := ⟨⟨600, 0⟩, TradeAction.discharge, 1/4, 2500, 3600, 5/2, 60, 20⟩

/-- Witness for the amended C9 theorem on two same-day trades. -/
theorem c9_same_day_grouping_witness :
    inSameDaySummary [c9exT3, c9exT4] c9exT3 c9exT4 ↔
      dayKey c9exT3.timestamp = dayKey c9exT4.timestamp :=
  c9_same_day_grouping [c9exT3, c9exT4] c9exT3 c9exT4 (by decide) (by decide)

end MT
